import Mathlib

/-!
Verification of the table-complexity classification and dual-format table
extraction pipeline of the `pasing-app` repository, together with the
frontend table-viewing helpers (`MarkdownViewer.tsx`, `MetadataPanel.tsx`,
`TableSummary.tsx`, `lib/types.ts`).

The backend classifier, grid normalizer, Markdown renderer and structured
record serializer are not shipped in this source tree (only their callers,
docs and the frontend consumers are), so those parts are modelled from the
specification; the frontend helpers are embedded directly from the
TypeScript source.
-/

namespace PasingApp

/-! ## §4.1 Table Complexity Classifier (spec-modelled) -/

/-- Modelled from the spec: §4.1, the default size threshold of the
complexity classifier ("the size threshold is configurable but defaults
to 4×4"); the backend classifier code is not under `src/`. -/
def defaultSizeThreshold : Nat := 4

/-- Modelled from the spec: §4.1 decision rule of the table complexity
classifier (backend code absent from `src/`): a table is complex iff
`rows >= threshold` and `cols >= threshold`, or it has merged cells. -/
def isComplexWith (threshold rows cols : Nat) (has_merged_cells : Bool) : Bool :=
  (decide (threshold ≤ rows) && decide (threshold ≤ cols)) || has_merged_cells

/-- Modelled from the spec: §4.1 classifier at the default 4×4 threshold. -/
def isComplex (rows cols : Nat) (has_merged_cells : Bool) : Bool :=
  isComplexWith defaultSizeThreshold rows cols has_merged_cells

/-! ## §4.2 Grid Normalizer (spec-modelled) -/

/-- Modelled from the spec: §4.2 per-row normalization (backend code absent
from `src/`): a row reported with fewer than `cols` cells is right-padded
with empty strings; the output contract of §4.2 requires every row to have
exactly `cols` entries, so a longer row is clipped to `cols`. -/
def normalizeRow (cols : Nat) (row : List String) : List String :=
  row.take cols ++ List.replicate (cols - row.length) ""

/-- Modelled from the spec: §4.2 grid normalization applied to every row of
a raw header or body grid. -/
def normalizeGrid (cols : Nat) (g : List (List String)) : List (List String) :=
  g.map (normalizeRow cols)

/-- Modelled from the spec: §4.2 normalizer on the full raw input (header
rows and body rows plus the target column count). -/
def normalizeTable (cols : Nat) (headers body : List (List String)) :
    List (List String) × List (List String) :=
  (normalizeGrid cols headers, normalizeGrid cols body)

/-! ## §4.3 Markdown Table Renderer (spec-modelled) -/

/-- Modelled from the spec: §4.3, one rendered line of a Markdown table,
cells separated by the pipe delimiter. -/
def mdRowLine (cells : List String) : String :=
  "| " ++ String.intercalate " | " cells ++ " |"

/-- Modelled from the spec: §4.3, the separator row of dashes matching
`cols` columns. -/
def mdSeparator (cols : Nat) : String :=
  "| " ++ String.intercalate " | " (List.replicate cols "---") ++ " |"

/-- Modelled from the spec: §4.3 Markdown table renderer (backend code
absent from `src/`): the rendered text block as its list of lines — the
header rows, then one separator row, then one line per body row. -/
def renderMarkdownTable (cols : Nat) (headers body : List (List String)) :
    List String :=
  headers.map mdRowLine ++ mdSeparator cols :: body.map mdRowLine

/-! ## §3 Table entity and §4.4 Structured Record Serializer (spec-modelled) -/

/-- Modelled from the spec: §3, the Table entity constructed per detected
grid by the backend pipeline (backend code absent from `src/`). -/
structure Table where
  table_id : String
  page : Nat
  caption : Option String
  rows : Nat
  cols : Nat
  has_merged_cells : Bool
  is_complex : Bool
  headers : List (List String)
  body_rows : List (List String)
  summary : Option String

/-- A structured nested key-value value, the shape of the JSON records
exchanged between the serializer and the frontend. -/
inductive Json where
  | null : Json
  | bool (b : Bool) : Json
  | num (n : Nat) : Json
  | str (s : String) : Json
  | arr (xs : List Json) : Json
  | obj (kvs : List (String × Json)) : Json

/-- An optional string serialized as a nullable JSON field. -/
def optStrJson : Option String → Json
  | none => Json.null
  | some s => Json.str s

/-- A grid of cell strings serialized as an array of arrays of strings. -/
def gridJson (g : List (List String)) : Json :=
  Json.arr (g.map fun r => Json.arr (r.map Json.str))

/-- Modelled from the spec: §4.4 Output 1, the structured record serializer
(backend code absent from `src/`): the full Table entity as a nested
object with the stable keys `table_id`, `page`, `caption`, `complexity`
(`rows`, `cols`, `has_merged_cells`, `is_complex`), `structure`
(`headers`, `rows`) and `summary`; an unset summary is serialized as
null. -/
def serializeTable (t : Table) : Json :=
  Json.obj
    [ ("table_id", Json.str t.table_id),
      ("page", Json.num t.page),
      ("caption", optStrJson t.caption),
      ("complexity", Json.obj
        [ ("rows", Json.num t.rows),
          ("cols", Json.num t.cols),
          ("has_merged_cells", Json.bool t.has_merged_cells),
          ("is_complex", Json.bool t.is_complex) ]),
      ("structure", Json.obj
        [ ("headers", gridJson t.headers),
          ("rows", gridJson t.body_rows) ]),
      ("summary", optStrJson t.summary) ]

/-- The top-level key list of an object value (empty for non-objects). -/
def jsonKeys : Json → List String
  | Json.obj kvs => kvs.map Prod.fst
  | _ => []

/-- Key lookup in an object's field list. -/
def getKey : List (String × Json) → String → Option Json
  | [], _ => none
  | (k, v) :: kvs, key => if k = key then some v else getKey kvs key

/-- Key lookup on a whole value: `none` on non-objects. -/
def getField (j : Json) (key : String) : Option Json :=
  match j with
  | Json.obj kvs => getKey kvs key
  | _ => none

/-! ## Frontend `TableData` type (`src/lib/types.ts`) -/

/-- The nested `complexity` object of the frontend `TableData` interface
(`src/lib/types.ts` lines 76–81). -/
structure Complexity where
  rows : Nat
  cols : Nat
  has_merged_cells : Bool
  is_complex : Bool
deriving DecidableEq

/-- The nested `structure` object of the frontend `TableData` interface
(`src/lib/types.ts` lines 82–85). -/
structure TableStructure where
  headers : List (List String)
  rows : List (List String)
deriving DecidableEq

/-- The frontend `TableData` interface (`src/lib/types.ts` lines 71–87);
the TypeScript field `structure` is a Lean keyword, rendered `struct`
here. `chunk_id`, `caption` and `summary` are the optional fields. -/
structure TableData where
  table_id : String
  chunk_id : Option String
  page : Nat
  caption : Option String
  complexity : Complexity
  struct : TableStructure
  summary : Option String
deriving DecidableEq

/-- Read a JSON string. -/
def asStr : Json → Option String
  | Json.str s => some s
  | _ => none

/-- Read a JSON number as a natural. -/
def asNat : Json → Option Nat
  | Json.num n => some n
  | _ => none

/-- Read a JSON boolean. -/
def asBool : Json → Option Bool
  | Json.bool b => some b
  | _ => none

/-- Read an optional string field: an absent or null field is `none`, a
string field is `some`; anything else is a type error. -/
def asOptStr : Option Json → Option (Option String)
  | none => some none
  | some Json.null => some none
  | some (Json.str s) => some (some s)
  | _ => none

/-- Read every element of a JSON list as a string. -/
def asStrList : List Json → Option (List String)
  | [] => some []
  | j :: js =>
    match asStr j, asStrList js with
    | some s, some ss => some (s :: ss)
    | _, _ => none

/-- Read a row of cell strings. -/
def asRow : Json → Option (List String)
  | Json.arr xs => asStrList xs
  | _ => none

/-- Read every element of a JSON list as a row of cell strings. -/
def asRowList : List Json → Option (List (List String))
  | [] => some []
  | j :: js =>
    match asRow j, asRowList js with
    | some r, some rs => some (r :: rs)
    | _, _ => none

/-- Read a grid of cell strings. -/
def asGrid : Json → Option (List (List String))
  | Json.arr xs => asRowList xs
  | _ => none

/-- The shape contract of the frontend `TableData` interface
(`src/lib/types.ts` lines 71–87) as a parser of structured records: the
required fields `table_id`, `page`, `complexity` (with `rows`, `cols`,
`has_merged_cells`, `is_complex`) and `structure` (with `headers`,
`rows`) must be present with the right types; `chunk_id`, `caption` and
`summary` may be absent or null. -/
def parseTableData (j : Json) : Option TableData :=
  match j with
  | Json.obj kvs => do
    let tid ← getKey kvs "table_id" >>= asStr
    let cid ← asOptStr (getKey kvs "chunk_id")
    let pg ← getKey kvs "page" >>= asNat
    let cap ← asOptStr (getKey kvs "caption")
    let cobj ← getKey kvs "complexity"
    let r ← getField cobj "rows" >>= asNat
    let c ← getField cobj "cols" >>= asNat
    let m ← getField cobj "has_merged_cells" >>= asBool
    let ic ← getField cobj "is_complex" >>= asBool
    let sobj ← getKey kvs "structure"
    let hs ← getField sobj "headers" >>= asGrid
    let rs ← getField sobj "rows" >>= asGrid
    let summ ← asOptStr (getKey kvs "summary")
    pure { table_id := tid, chunk_id := cid, page := pg, caption := cap,
           complexity := ⟨r, c, m, ic⟩, struct := ⟨hs, rs⟩, summary := summ }
  | _ => none

/-- The `TableData` value a faithfully parsed structured record of a
backend Table yields (`chunk_id` is never emitted by the serializer). -/
def tableToTableData (t : Table) : TableData :=
  { table_id := t.table_id, chunk_id := none, page := t.page,
    caption := t.caption,
    complexity := ⟨t.rows, t.cols, t.has_merged_cells, t.is_complex⟩,
    struct := ⟨t.headers, t.body_rows⟩, summary := t.summary }

/-! ## `TableSummary.tsx` summary section -/

/-- The fixed no-summary message of the `TableSummary` component
(`src/components/viewer/TableSummary.tsx` lines 54–56). -/
def noSummaryMessage : String := "No summary available for this table"

/-- JavaScript truthiness of the optional `summary` string: an absent
summary and the empty string are both falsy. -/
def summaryTruthy : Option String → Bool
  | none => false
  | some s => !(s == "")

/-- The summary section rendered by the `TableSummary` component
(`src/components/viewer/TableSummary.tsx` lines 46–57): the summary text
when `summary` is truthy, otherwise the fixed no-summary message. -/
def renderSummarySection (td : TableData) : String :=
  if summaryTruthy td.summary then td.summary.getD "" else noSummaryMessage

/-! ## `MetadataPanel.tsx` CSV conversion -/

/-- One CSV line of `tableToCSV`: each cell wrapped verbatim in double
quotes, cells joined by commas
(`src/components/viewer/MetadataPanel.tsx` lines 437 and 444). -/
def rowCsvLine (row : List String) : String :=
  String.intercalate "," (row.map fun cell => "\"" ++ cell ++ "\"")

/-- The `tableToCSV` conversion of the table detail modal
(`src/components/viewer/MetadataPanel.tsx` lines 431–449): header rows
then data rows, each quoted and comma-joined, joined with newlines; the
emptiness guards of the source are kept. -/
def tableToCSV (td : TableData) : String :=
  let headerLines :=
    if td.struct.headers.length > 0 then td.struct.headers.map rowCsvLine else []
  let dataLines :=
    if td.struct.rows.length > 0 then td.struct.rows.map rowCsvLine else []
  String.intercalate "\n" (headerLines ++ dataLines)

/-! ## `MarkdownViewer.tsx` `generateId` (lines 172–197) -/

/-- The JavaScript whitespace class (`\s`, also the set removed by
`String.prototype.trim`). -/
def isJsWs (c : Char) : Bool :=
  c = ' ' || c = '\t' || c = '\n' || c = Char.ofNat 11 || c = Char.ofNat 12 ||
  c = '\r' || c = Char.ofNat 0xa0 || c = Char.ofNat 0x1680 ||
  (Char.ofNat 0x2000 ≤ c && c ≤ Char.ofNat 0x200a) ||
  c = Char.ofNat 0x2028 || c = Char.ofNat 0x2029 || c = Char.ofNat 0x202f ||
  c = Char.ofNat 0x205f || c = Char.ofNat 0x3000 || c = Char.ofNat 0xfeff

/-- A JavaScript word character (`\w`): ASCII letters, digits, underscore. -/
def isWordChar (c : Char) : Bool :=
  ('A' ≤ c && c ≤ 'Z') || ('a' ≤ c && c ≤ 'z') || ('0' ≤ c && c ≤ '9') || c = '_'

/-- `String.prototype.trim`: strip JavaScript whitespace from both ends. -/
def jsTrim (l : List Char) : List Char :=
  ((l.dropWhile isJsWs).reverse.dropWhile isJsWs).reverse

/-- Replace every maximal run of characters satisfying `p` with the single
character `rep`; the flag records whether the previous character was in a
run. -/
def squashRuns (p : Char → Bool) (rep : Char) : Bool → List Char → List Char
  | _, [] => []
  | inRun, c :: cs =>
    if p c then
      (if inRun then squashRuns p rep true cs else rep :: squashRuns p rep true cs)
    else c :: squashRuns p rep false cs

/-- `.replace(/\s+/g, '-')`: each maximal whitespace run becomes one
hyphen. -/
def wsToDash (l : List Char) : List Char :=
  squashRuns isJsWs '-' false l

/-- `.replace(/[^\w\-]+/g, '')`: keep only word characters and hyphens. -/
def keepWordAndDash (l : List Char) : List Char :=
  l.filter fun c => isWordChar c || c = '-'

/-- `.replace(/\-\-+/g, '-')`: a run of two or more hyphens becomes one
hyphen (and an isolated hyphen is already one hyphen, so every maximal
hyphen run collapses to a single hyphen). -/
def collapseDashes (l : List Char) : List Char :=
  squashRuns (fun c => c = '-') '-' false l

/-- The `^-+` and `-+$` replacements of the slug chain: strip hyphens
from both ends. -/
def stripDashEnds (l : List Char) : List Char :=
  ((l.dropWhile (· = '-')).reverse.dropWhile (· = '-')).reverse

/-- The slug chain of `generateId`
(`src/components/viewer/MarkdownViewer.tsx` lines 175–183): lowercase,
trim, whitespace runs to hyphens, drop non-word characters, collapse
hyphen runs, strip end hyphens. -/
def slugify (s : List Char) : List Char :=
  stripDashEnds (collapseDashes (keepWordAndDash (wsToDash (jsTrim (s.map Char.toLower)))))

/-- Characters `encodeURIComponent` leaves unescaped. -/
def isUriUnreserved (c : Char) : Bool :=
  ('A' ≤ c && c ≤ 'Z') || ('a' ≤ c && c ≤ 'z') || ('0' ≤ c && c ≤ '9') ||
  c = '-' || c = '_' || c = '.' || c = '!' || c = '~' || c = '*' ||
  c = Char.ofNat 39 || c = '(' || c = ')'

/-- The UTF-8 bytes of a scalar value. -/
def utf8Bytes (c : Char) : List Nat :=
  let n := c.toNat
  if n < 0x80 then [n]
  else if n < 0x800 then [0xc0 + n / 64, 0x80 + n % 64]
  else if n < 0x10000 then
    [0xe0 + n / 4096, 0x80 + (n / 64) % 64, 0x80 + n % 64]
  else
    [0xf0 + n / 262144, 0x80 + (n / 4096) % 64, 0x80 + (n / 64) % 64,
     0x80 + n % 64]

/-- An uppercase hexadecimal digit. -/
def hexDigit (n : Nat) : Char :=
  if n < 10 then Char.ofNat ('0'.toNat + n) else Char.ofNat ('A'.toNat + n - 10)

/-- One percent-escaped byte, `%XX`. -/
def encodeByte (b : Nat) : List Char :=
  ['%', hexDigit (b / 16), hexDigit (b % 16)]

/-- `encodeURIComponent` on a single character. -/
def encodeChar (c : Char) : List Char :=
  if isUriUnreserved c then [c]
  else (utf8Bytes c).foldr (fun b acc => encodeByte b ++ acc) []

/-- `encodeURIComponent` on a character list. -/
def encodeURIComponentL (s : List Char) : List Char :=
  s.foldr (fun c acc => encodeChar c ++ acc) []

/-- `.replace(/%/g, '-')` on one character. -/
def percentToDash (c : Char) : Char :=
  if c = '%' then '-' else c

/-- The `generateId` helper of the viewer
(`src/components/viewer/MarkdownViewer.tsx` lines 172–197). `rand` stands
for the random suffix `Math.random().toString(36).substr(2, 9)` of the
final fallback; everything before that fallback is deterministic. -/
def generateId (rand : String) (text : String) : String :=
  let id1 := slugify text.data
  let id2 :=
    if id1 = [] then
      (encodeURIComponentL (jsTrim (text.data.map Char.toLower))).map percentToDash
    else id1
  if id2 = [] then String.mk ("heading-".data ++ rand.data) else String.mk id2

/-! ## A small matcher for the viewer's regular expressions
(`src/components/viewer/MarkdownViewer.tsx` lines 20–39) -/

/-- One atom of the linear regular expressions the viewer uses: a
character class, a starred class, or a class repeated at least once. -/
inductive Atom where
  | cls (p : Char → Bool) : Atom
  | star (p : Char → Bool) : Atom
  | plus (p : Char → Bool) : Atom

/-- Backtracking through a starred class: continue with `m` after
skipping any run of characters satisfying `p`. -/
def starMatch (m : List Char → Bool) (p : Char → Bool) : List Char → Bool
  | [] => m []
  | c :: cs => m (c :: cs) || (p c && starMatch m p cs)

/-- Backtracking matcher: `matchL re s` is true when some prefix of `s`
matches the whole atom list `re`. -/
def matchL : List Atom → List Char → Bool
  | [], _ => true
  | Atom.cls p :: rs, s =>
    match s with
    | [] => false
    | c :: cs => p c && matchL rs cs
  | Atom.star p :: rs, s => starMatch (matchL rs) p s
  | Atom.plus p :: rs, s =>
    match s with
    | [] => false
    | c :: cs => p c && starMatch (matchL rs) p cs

/-- Unanchored search, the semantics of JavaScript `RegExp.test`: some
suffix of `s` has a prefix matching `re`. -/
def searchL (re : List Atom) : List Char → Bool
  | [] => matchL re []
  | c :: cs => matchL re (c :: cs) || searchL re cs

/-- Case-insensitive literal text, one class atom per character (the `i`
flag of the source regexes). -/
def litAtoms (l : List Char) : List Atom :=
  l.map fun c => Atom.cls fun x => x.toLower == c

/-- JavaScript `.` without the `s` flag: any character except a line
terminator. -/
def isNotNL (c : Char) : Bool :=
  !(c = '\n' || c = '\r' || c = Char.ofNat 0x2028 || c = Char.ofNat 0x2029)

/-- The detection regex of `isTableReference`
(`src/components/viewer/MarkdownViewer.tsx` line 24), the pattern
`Table\s+\d+.*tables` slash `table_\d+\.json` with the `i` flag, as an
atom list. -/
def tableRefRegex : List Atom :=
  litAtoms "table".data ++
  Atom.plus isJsWs :: Atom.plus Char.isDigit :: Atom.star isNotNL ::
  (litAtoms "tables/table_".data ++
   Atom.plus Char.isDigit :: litAtoms ".json".data)

/-- The viewer's `isTableReference` helper
(`src/components/viewer/MarkdownViewer.tsx` lines 20–28): test the text
of the blockquote against the detection regex. -/
def isTableReference (s : String) : Bool :=
  searchL tableRefRegex s.data

/-- Case-insensitive literal prefix test. -/
def prefixInsens : List Char → List Char → Bool
  | [], _ => true
  | _ :: _, [] => false
  | l :: ls, c :: cs => c.toLower == l && prefixInsens ls cs

/-- One candidate position of the extraction regex `table_(\d+)\.json`
with the `i` flag (`src/components/viewer/MarkdownViewer.tsx` line 34):
at this position the text must start with `table_` (case-insensitively),
then one or more digits — the capture, maximal because a shorter match
would have to be followed by a digit rather than a dot — then `.json`
(case-insensitively). -/
def idMatchAt (s : List Char) : Option (List Char) :=
  if prefixInsens "table_".data s then
    let rest := s.drop 6
    let ds := rest.takeWhile Char.isDigit
    if ds = [] then none
    else if prefixInsens ".json".data (rest.drop ds.length) then some ds
    else none
  else none

/-- Leftmost match of the extraction regex: the digits captured at the
first position where `idMatchAt` succeeds. -/
def findId : List Char → Option (List Char)
  | [] => none
  | c :: cs =>
    match idMatchAt (c :: cs) with
    | some ds => some ds
    | none => findId cs

/-- The viewer's `extractTableId` helper
(`src/components/viewer/MarkdownViewer.tsx` lines 31–39): `table_`
followed by the digits captured by the first match of the extraction
regex, or `none` when nothing matches. -/
def extractTableId (s : String) : Option String :=
  (findId s.data).map fun ds => String.mk ("table_".data ++ ds)

/-- The result of the viewer's blockquote renderer: either the
interactive table-reference widget or an ordinary blockquote. -/
inductive BlockquoteRender where
  | widget (tableId docName : String) : BlockquoteRender
  | plain : BlockquoteRender
deriving DecidableEq

/-- The blockquote renderer of `MarkdownViewer`
(`src/components/viewer/MarkdownViewer.tsx` lines 148–163): with a
document name, a recognized blockquote whose table id extracts becomes a
`TableReference` widget; everything else stays an ordinary blockquote. -/
def renderBlockquote (docName : Option String) (text : String) : BlockquoteRender :=
  match docName with
  | some dn =>
    if isTableReference text then
      match extractTableId text with
      | some id => BlockquoteRender.widget id dn
      | none => BlockquoteRender.plain
    else BlockquoteRender.plain
  | none => BlockquoteRender.plain

/-- Declarative reading of the detection regex, for comparison with the
executable matcher: the text contains, case-insensitively, `table`, then
one or more whitespace characters, then one or more digits, then — with
no line terminator in between — `tables` + `/` + `table_`, then one or
more digits, then `.json`. -/
def AmendedTableRef (s : List Char) : Prop :=
  ∃ u a1 w ds mid a2 ds2 a3 v,
    s = u ++ a1 ++ w ++ ds ++ mid ++ a2 ++ ds2 ++ a3 ++ v ∧
    a1.map Char.toLower = "table".data ∧
    w ≠ [] ∧ (∀ c ∈ w, isJsWs c = true) ∧
    ds ≠ [] ∧ (∀ c ∈ ds, c.isDigit = true) ∧
    (∀ c ∈ mid, isNotNL c = true) ∧
    a2.map Char.toLower = "tables/table_".data ∧
    ds2 ≠ [] ∧ (∀ c ∈ ds2, c.isDigit = true) ∧
    a3.map Char.toLower = ".json".data

/-- Modelled from the spec: §6's inline-placeholder recognition condition
as the claim states it — the comparison definition for the refinement
claim about `isTableReference`. The text contains the literal word
`Table` followed by a number (whitespace between word and number, as in
the spec's example `> **Table 001**`), and a path fragment ending in
`table_{id}.json` for some digit string `id`. -/
def ClaimTableRef (s : List Char) : Prop :=
  (∃ u w ds v,
    s = u ++ "Table".data ++ w ++ ds ++ v ∧
    (∀ c ∈ w, isJsWs c = true) ∧ ds ≠ [] ∧ (∀ c ∈ ds, c.isDigit = true)) ∧
  (∃ x ds2 y,
    s = x ++ "table_".data ++ ds2 ++ ".json".data ++ y ∧
    ds2 ≠ [] ∧ (∀ c ∈ ds2, c.isDigit = true))

/-- The complex sample table of the spec's end-to-end scenario B (§8.8),
used to instantiate the theorems below at a concrete input. -/
def sampleTable : Table :=
  { table_id := "table_001", page := 1, caption := some "Scenario B",
    rows := 5, cols := 5, has_merged_cells := true, is_complex := true,
    headers := [["H1", "H2", "H3", "H4", "H5"]],
    body_rows := [["1", "2", "3", "4", "5"], ["6", "7", "8", "9", "10"],
                  ["11", "12", "13", "14", "15"], ["16", "17", "18", "19", "20"]],
    summary := none }

/-- `sampleTable` as seen by the frontend, without a summary. -/
def sampleTD : TableData := tableToTableData sampleTable

/-- `sampleTable` as seen by the frontend, with an empty-string summary. -/
def sampleTDEmptySummary : TableData := { sampleTD with summary := some "" }

/-- `sampleTable` as seen by the frontend, with a real summary. -/
def sampleTDSummary : TableData := { sampleTD with summary := some "Totals by region" }

/-! ## Helper lemmas -/

theorem normalizeRow_length (cols : Nat) (row : List String) :
    (normalizeRow cols row).length = cols := by
  simp [normalizeRow]
  omega

theorem normalizeRow_of_length_eq {cols : Nat} {row : List String}
    (h : row.length = cols) : normalizeRow cols row = row := by
  simp [normalizeRow, List.take_of_length_le (le_of_eq h), h]

theorem asStrList_map (r : List String) : asStrList (r.map Json.str) = some r := by
  induction r with
  | nil => rfl
  | cons a l ih => simp [asStrList, asStr, ih]

theorem asGrid_gridJson (g : List (List String)) : asGrid (gridJson g) = some g := by
  induction g with
  | nil => rfl
  | cons r g ih =>
    simp only [gridJson, asGrid, List.map_cons, asRowList, asRow, asStrList_map] at ih ⊢
    simp [ih]

theorem parseTableData_serializeTable (t : Table) :
    parseTableData (serializeTable t) = some (tableToTableData t) := by
  cases t with
  | mk tid page cap rows cols merged ic hs brs summ =>
    cases cap <;> cases summ <;>
      simp [parseTableData, serializeTable, tableToTableData, getKey, getField,
            asStr, asNat, asBool, asOptStr, optStrJson, asGrid_gridJson]

theorem utf8Bytes_ne_nil (c : Char) : utf8Bytes c ≠ [] := by
  unfold utf8Bytes
  dsimp only
  split_ifs <;> simp

theorem encodeChar_ne_nil (c : Char) : encodeChar c ≠ [] := by
  unfold encodeChar
  split
  · simp
  · cases hb : utf8Bytes c with
    | nil => exact absurd hb (utf8Bytes_ne_nil c)
    | cons b bs => simp [hb, encodeByte]

theorem encodeURIComponentL_ne_nil {s : List Char} (h : s ≠ []) :
    encodeURIComponentL s ≠ [] := by
  cases s with
  | nil => exact absurd rfl h
  | cons c cs =>
    simp only [encodeURIComponentL, List.foldr_cons]
    simp [encodeChar_ne_nil c]

theorem strMk_ne_empty {l : List Char} (h : l ≠ []) : String.mk l ≠ "" :=
  fun he => h (congrArg String.data he)

theorem matchL_cls_iff {p : Char → Bool} {rs : List Atom} {s : List Char} :
    matchL (Atom.cls p :: rs) s = true ↔
      ∃ c cs, s = c :: cs ∧ p c = true ∧ matchL rs cs = true := by
  cases s with
  | nil => simp [matchL]
  | cons c cs =>
    simp only [matchL, Bool.and_eq_true]
    constructor
    · rintro ⟨hp, hm⟩
      exact ⟨c, cs, rfl, hp, hm⟩
    · rintro ⟨c', cs', heq, hp, hm⟩
      cases heq
      exact ⟨hp, hm⟩

theorem starMatch_iff {m : List Char → Bool} {p : Char → Bool} {s : List Char} :
    starMatch m p s = true ↔
      ∃ a b, s = a ++ b ∧ (∀ c ∈ a, p c = true) ∧ m b = true := by
  induction s with
  | nil =>
    simp only [starMatch]
    constructor
    · intro hm
      exact ⟨[], [], rfl, by simp, hm⟩
    · rintro ⟨a, b, heq, _, hm⟩
      obtain ⟨rfl, rfl⟩ := List.append_eq_nil.mp heq.symm
      exact hm
  | cons c cs ih =>
    simp only [starMatch, Bool.or_eq_true, Bool.and_eq_true]
    constructor
    · rintro (hm | ⟨hp, hs⟩)
      · exact ⟨[], c :: cs, rfl, by simp, hm⟩
      · obtain ⟨a, b, rfl, ha, hm⟩ := ih.mp hs
        refine ⟨c :: a, b, rfl, ?_, hm⟩
        intro x hx
        rcases List.mem_cons.mp hx with rfl | hx
        · exact hp
        · exact ha x hx
    · rintro ⟨a, b, heq, ha, hm⟩
      cases a with
      | nil =>
        left
        have hb : b = c :: cs := by simpa using heq.symm
        exact hb ▸ hm
      | cons a0 a' =>
        right
        injection heq with h0 h1
        subst h0
        refine ⟨ha c (by simp), ih.mpr ⟨a', b, h1, ?_, hm⟩⟩
        intro x hx
        exact ha x (List.mem_cons_of_mem _ hx)

theorem matchL_star_iff {p : Char → Bool} {rs : List Atom} {s : List Char} :
    matchL (Atom.star p :: rs) s = true ↔
      ∃ a b, s = a ++ b ∧ (∀ c ∈ a, p c = true) ∧ matchL rs b = true := by
  show starMatch (matchL rs) p s = true ↔ _
  exact starMatch_iff

theorem matchL_plus_iff {p : Char → Bool} {rs : List Atom} {s : List Char} :
    matchL (Atom.plus p :: rs) s = true ↔
      ∃ a b, s = a ++ b ∧ a ≠ [] ∧ (∀ c ∈ a, p c = true) ∧ matchL rs b = true := by
  cases s with
  | nil =>
    simp only [matchL]
    constructor
    · intro h
      exact absurd h (by simp)
    · rintro ⟨a, b, heq, hne, -, -⟩
      obtain ⟨rfl, rfl⟩ := List.append_eq_nil.mp heq.symm
      exact absurd rfl hne
  | cons c cs =>
    simp only [matchL, Bool.and_eq_true]
    rw [starMatch_iff]
    constructor
    · rintro ⟨hp, a', b, rfl, ha, hm⟩
      refine ⟨c :: a', b, rfl, by simp, ?_, hm⟩
      intro x hx
      rcases List.mem_cons.mp hx with rfl | hx
      · exact hp
      · exact ha x hx
    · rintro ⟨a, b, heq, hne, ha, hm⟩
      cases a with
      | nil => exact absurd rfl hne
      | cons a0 a' =>
        injection heq with h0 h1
        subst h0
        refine ⟨ha c (by simp), a', b, h1, ?_, hm⟩
        intro x hx
        exact ha x (List.mem_cons_of_mem _ hx)

theorem searchL_iff {re : List Atom} {s : List Char} :
    searchL re s = true ↔ ∃ u v, s = u ++ v ∧ matchL re v = true := by
  induction s with
  | nil =>
    simp only [searchL]
    constructor
    · intro hm
      exact ⟨[], [], rfl, hm⟩
    · rintro ⟨u, v, heq, hm⟩
      obtain ⟨rfl, rfl⟩ := List.append_eq_nil.mp heq.symm
      exact hm
  | cons c cs ih =>
    simp only [searchL, Bool.or_eq_true]
    constructor
    · rintro (hm | hs)
      · exact ⟨[], c :: cs, rfl, hm⟩
      · obtain ⟨u, v, rfl, hm⟩ := ih.mp hs
        exact ⟨c :: u, v, rfl, hm⟩
    · rintro ⟨u, v, heq, hm⟩
      cases u with
      | nil =>
        left
        have hv : v = c :: cs := by simpa using heq.symm
        exact hv ▸ hm
      | cons u0 u' =>
        right
        injection heq with h0 h1
        subst h0
        exact ih.mpr ⟨u', v, h1, hm⟩

theorem matchL_lit_iff {l : List Char} {rs : List Atom} {s : List Char} :
    matchL (litAtoms l ++ rs) s = true ↔
      ∃ a b, s = a ++ b ∧ a.map Char.toLower = l ∧ matchL rs b = true := by
  induction l generalizing s with
  | nil =>
    simp only [litAtoms, List.map_nil, List.nil_append]
    constructor
    · intro hm
      exact ⟨[], s, rfl, rfl, hm⟩
    · rintro ⟨a, b, heq, hmap, hm⟩
      obtain rfl := List.map_eq_nil_iff.mp hmap
      simpa [heq] using hm
  | cons cl l' ih =>
    simp only [litAtoms, List.map_cons, List.cons_append]
    rw [matchL_cls_iff]
    constructor
    · rintro ⟨c, cs, rfl, hp, hm⟩
      obtain ⟨a', b, rfl, hmap, hm'⟩ := ih.mp hm
      refine ⟨c :: a', b, rfl, ?_, hm'⟩
      simp only [List.map_cons, hmap]
      simp [beq_iff_eq] at hp
      simp [hp]
    · rintro ⟨a, b, heq, hmap, hm⟩
      cases a with
      | nil => simp at hmap
      | cons a0 a' =>
        simp only [List.map_cons, List.cons.injEq] at hmap
        obtain ⟨h0, h1⟩ := hmap
        refine ⟨a0, a' ++ b, by simp [heq], by simp [beq_iff_eq, h0], ?_⟩
        exact ih.mpr ⟨a', b, rfl, h1, hm⟩

theorem matchL_lit_nil_iff {l : List Char} {s : List Char} :
    matchL (litAtoms l) s = true ↔ ∃ a b, s = a ++ b ∧ a.map Char.toLower = l := by
  rw [← List.append_nil (litAtoms l), matchL_lit_iff]
  constructor
  · rintro ⟨a, b, heq, hmap, -⟩
    exact ⟨a, b, heq, hmap⟩
  · rintro ⟨a, b, heq, hmap⟩
    exact ⟨a, b, heq, hmap, rfl⟩

theorem prefixInsens_append {lit a : List Char} (b : List Char)
    (h : a.map Char.toLower = lit) : prefixInsens lit (a ++ b) = true := by
  induction a generalizing lit with
  | nil =>
    subst h
    rfl
  | cons c a' ih =>
    subst h
    simp only [List.map_cons, List.cons_append, prefixInsens, Bool.and_eq_true]
    exact ⟨by simp, ih rfl⟩

theorem toLower_of_isDigit {c : Char} (h : c.isDigit = true) : c.toLower = c := by
  simp only [Char.isDigit, Bool.and_eq_true, decide_eq_true_eq] at h
  have h57 : c.val.toNat ≤ 57 := UInt32.toNat_le_of_le (by decide) h.2
  unfold Char.toLower
  rw [if_neg]
  rintro ⟨h65, -⟩
  simp only [Char.toNat] at h65
  omega

theorem isDigit_false_of_toLower_dot {c : Char} (h : c.toLower = '.') :
    c.isDigit = false := by
  by_contra hd
  rw [Bool.not_eq_false] at hd
  rw [toLower_of_isDigit hd] at h
  subst h
  simp at hd

theorem idMatchAt_append {a2b ds2 a3 : List Char} (v : List Char)
    (h2 : a2b.map Char.toLower = "table_".data)
    (hds : ds2 ≠ []) (hdig : ∀ c ∈ ds2, c.isDigit = true)
    (h3 : a3.map Char.toLower = ".json".data) :
    idMatchAt (a2b ++ ds2 ++ a3 ++ v) = some ds2 := by
  have hlen : a2b.length = 6 := by
    have := congrArg List.length h2
    simpa using this
  have hpre : prefixInsens "table_".data (a2b ++ (ds2 ++ a3 ++ v)) = true :=
    prefixInsens_append _ h2
  have hdrop : (a2b ++ ds2 ++ a3 ++ v).drop 6 = ds2 ++ a3 ++ v := by
    rw [List.append_assoc, List.append_assoc, List.drop_left' hlen, ← List.append_assoc]
  have ha3 : ∃ d a3', a3 = d :: a3' ∧ d.toLower = '.' := by
    cases a3 with
    | nil => simp at h3
    | cons d a3' =>
      simp only [List.map_cons] at h3
      exact ⟨d, a3', rfl, by
        have := congrArg (fun l => l.headD ' ') h3
        simpa using this⟩
  obtain ⟨d, a3', rfl, hd⟩ := ha3
  have htake : (ds2 ++ (d :: a3') ++ v).takeWhile Char.isDigit = ds2 := by
    rw [List.append_assoc, List.takeWhile_append_of_pos hdig]
    simp [List.takeWhile_cons, isDigit_false_of_toLower_dot hd]
  have hdroplen : ((ds2 ++ (d :: a3') ++ v).drop ds2.length) = (d :: a3') ++ v := by
    rw [List.append_assoc, List.drop_left' rfl]
  unfold idMatchAt
  rw [if_pos]
  · simp only [hdrop, htake, hdroplen]
    rw [if_neg (by simpa using hds), if_pos (prefixInsens_append _ h3)]
  · have : a2b ++ ds2 ++ a3' ++ v = a2b ++ (ds2 ++ a3' ++ v) := by simp [List.append_assoc]
    rw [List.append_assoc, List.append_assoc, ← List.append_assoc ds2]
    exact prefixInsens_append _ h2

theorem findId_append_some (u v : List Char) (h : idMatchAt v ≠ none) :
    findId (u ++ v) ≠ none := by
  induction u with
  | nil =>
    cases v with
    | nil => exact absurd rfl h
    | cons c cs =>
      simp only [List.nil_append, findId]
      cases hm : idMatchAt (c :: cs) with
      | none => exact absurd hm h
      | some ds => simp
  | cons c u' ih =>
    simp only [List.cons_append, findId]
    cases hm : idMatchAt (c :: (u' ++ v)) with
    | none => exact ih
    | some ds => simp

theorem isTableReference_iff {s : String} :
    isTableReference s = true ↔ AmendedTableRef s.data := by
  unfold isTableReference AmendedTableRef tableRefRegex
  rw [searchL_iff]
  constructor
  · rintro ⟨u, v, heq, hm⟩
    rw [matchL_lit_iff] at hm
    obtain ⟨a1, v1, rfl, hmap1, hm⟩ := hm
    rw [matchL_plus_iff] at hm
    obtain ⟨w, v2, rfl, hwne, hwall, hm⟩ := hm
    rw [matchL_plus_iff] at hm
    obtain ⟨ds, v3, rfl, hdsne, hdsall, hm⟩ := hm
    rw [matchL_star_iff] at hm
    obtain ⟨mid, v4, rfl, hmidall, hm⟩ := hm
    rw [matchL_lit_iff] at hm
    obtain ⟨a2, v5, rfl, hmap2, hm⟩ := hm
    rw [matchL_plus_iff] at hm
    obtain ⟨ds2, v6, rfl, hds2ne, hds2all, hm⟩ := hm
    rw [matchL_lit_nil_iff] at hm
    obtain ⟨a3, v7, rfl, hmap3⟩ := hm
    refine ⟨u, a1, w, ds, mid, a2, ds2, a3, v7, ?_, hmap1, hwne, hwall, hdsne,
      hdsall, hmidall, hmap2, hds2ne, hds2all, hmap3⟩
    simp [heq, List.append_assoc]
  · rintro ⟨u, a1, w, ds, mid, a2, ds2, a3, v, heq, hmap1, hwne, hwall, hdsne,
      hdsall, hmidall, hmap2, hds2ne, hds2all, hmap3⟩
    refine ⟨u, a1 ++ (w ++ (ds ++ (mid ++ (a2 ++ (ds2 ++ (a3 ++ v)))))),
      by simp [heq, List.append_assoc], ?_⟩
    rw [matchL_lit_iff]
    refine ⟨a1, w ++ (ds ++ (mid ++ (a2 ++ (ds2 ++ (a3 ++ v))))), rfl, hmap1, ?_⟩
    rw [matchL_plus_iff]
    refine ⟨w, ds ++ (mid ++ (a2 ++ (ds2 ++ (a3 ++ v)))), rfl, hwne, hwall, ?_⟩
    rw [matchL_plus_iff]
    refine ⟨ds, mid ++ (a2 ++ (ds2 ++ (a3 ++ v))), rfl, hdsne, hdsall, ?_⟩
    rw [matchL_star_iff]
    refine ⟨mid, a2 ++ (ds2 ++ (a3 ++ v)), rfl, hmidall, ?_⟩
    rw [matchL_lit_iff]
    refine ⟨a2, ds2 ++ (a3 ++ v), rfl, hmap2, ?_⟩
    rw [matchL_plus_iff]
    refine ⟨ds2, a3 ++ v, rfl, hds2ne, hds2all, ?_⟩
    rw [matchL_lit_nil_iff]
    exact ⟨a3, v, rfl, hmap3⟩

theorem extractTableId_isSome_of_ref {s : String}
    (h : isTableReference s = true) : ∃ id, extractTableId s = some id := by
  obtain ⟨u, a1, w, ds, mid, a2, ds2, a3, v, heq, -, -, -, -, -, -, hmap2,
    hds2ne, hds2all, hmap3⟩ := isTableReference_iff.mp h
  have hsplit : ∃ a2a a2b, a2 = a2a ++ a2b ∧
      a2a.map Char.toLower = "tables/".data ∧
      a2b.map Char.toLower = "table_".data := by
    have : a2.map Char.toLower = "tables/".data ++ "table_".data := by
      simpa using hmap2
    obtain ⟨a2a, a2b, rfl, h1, h2⟩ := List.map_eq_append_iff.mp this
    exact ⟨a2a, a2b, rfl, h1, h2⟩
  obtain ⟨a2a, a2b, rfl, hmapA, hmapB⟩ := hsplit
  have hmatch : idMatchAt (a2b ++ ds2 ++ a3 ++ v) = some ds2 :=
    idMatchAt_append v hmapB hds2ne hds2all hmap3
  have hfind : findId s.data ≠ none := by
    have heq' : s.data = (u ++ a1 ++ w ++ ds ++ mid ++ a2a) ++ (a2b ++ ds2 ++ a3 ++ v) := by
      simp [heq, List.append_assoc]
    rw [heq']
    refine findId_append_some _ _ ?_
    rw [hmatch]
    simp
  cases hf : findId s.data with
  | none => exact absurd hf hfind
  | some ds' => exact ⟨String.mk ("table_".data ++ ds'), by simp [extractTableId, hf]⟩

/-! ## Claim theorems -/

/-- C1: for every table with non-negative integer `rows` and `cols` and
boolean `has_merged_cells`, the classifier's output satisfies
`is_complex == (rows >= 4 and cols >= 4) or has_merged_cells`; a 4×4
table without merged cells is complex, a 3×4 table without merged cells
is simple, a 2×2 table with one merged cell is complex, and any table
that is both small and merge-free is simple. -/
theorem classifier_is_complex_rule :
    (∀ (rows cols : Nat) (m : Bool),
      isComplex rows cols m = ((decide (4 ≤ rows) && decide (4 ≤ cols)) || m)) ∧
    isComplex 4 4 false = true ∧
    isComplex 3 4 false = false ∧
    isComplex 2 2 true = true ∧
    (∀ rows cols : Nat, ¬(4 ≤ rows ∧ 4 ≤ cols) → isComplex rows cols false = false) := by
  refine ⟨fun rows cols m => rfl, by decide, by decide, by decide, ?_⟩
  intro rows cols h
  simp [isComplex, isComplexWith, defaultSizeThreshold]
  omega

/-- Witness for C1: a 3×100 merge-free table is small and classified
simple. -/
theorem classifier_is_complex_rule_witness :
    ¬(4 ≤ 3 ∧ 4 ≤ 100) ∧ isComplex 3 100 false = false :=
  ⟨by decide, classifier_is_complex_rule.2.2.2.2 3 100 (by decide)⟩

/-- C5: for every raw header-row and body-row input and every target
column count `cols`, the normalizer's output contains only rows with
exactly `cols` entries, and a row with fewer than `cols` cells is
right-padded with empty strings to exactly `cols` length. -/
theorem normalizer_uniform_output :
    (∀ (cols : Nat) (headers body : List (List String)),
      (∀ r ∈ (normalizeTable cols headers body).1, r.length = cols) ∧
      (∀ r ∈ (normalizeTable cols headers body).2, r.length = cols)) ∧
    (∀ (cols : Nat) (row : List String), row.length ≤ cols →
      normalizeRow cols row = row ++ List.replicate (cols - row.length) "") := by
  refine ⟨fun cols headers body => ⟨?_, ?_⟩, fun cols row h => ?_⟩
  · intro r hr
    simp [normalizeTable, normalizeGrid] at hr
    obtain ⟨a, _, rfl⟩ := hr
    exact normalizeRow_length cols a
  · intro r hr
    simp [normalizeTable, normalizeGrid] at hr
    obtain ⟨a, _, rfl⟩ := hr
    exact normalizeRow_length cols a
  · simp [normalizeRow, List.take_of_length_le h]

/-- Witness for C5: a two-cell row padded to five columns. -/
theorem normalizer_uniform_output_witness :
    (["a", "b"] : List String).length ≤ 5 ∧
    normalizeRow 5 ["a", "b"] = ["a", "b"] ++ List.replicate (5 - (["a", "b"] : List String).length) "" :=
  ⟨by decide, normalizer_uniform_output.2 5 ["a", "b"] (by decide)⟩

/-- C6: the normalizer is idempotent on uniform input — if every header
and body row already has exactly `cols` entries, normalization returns
the identical grids unchanged. -/
theorem normalizer_idempotent (cols : Nat) (headers body : List (List String))
    (h1 : ∀ r ∈ headers, r.length = cols) (h2 : ∀ r ∈ body, r.length = cols) :
    normalizeTable cols headers body = (headers, body) := by
  unfold normalizeTable normalizeGrid
  rw [(List.map_congr_left fun r hr => normalizeRow_of_length_eq (h1 r hr)).trans
        (List.map_id' headers),
      (List.map_congr_left fun r hr => normalizeRow_of_length_eq (h2 r hr)).trans
        (List.map_id' body)]

/-- Witness for C6: normalizing the already-uniform scenario-A grid
returns it unchanged. -/
theorem normalizer_idempotent_witness :
    (∀ r ∈ [["A", "B", "C"]], r.length = 3) ∧
    (∀ r ∈ [["1", "2", "3"], ["4", "5", "6"]], r.length = 3) ∧
    normalizeTable 3 [["A", "B", "C"]] [["1", "2", "3"], ["4", "5", "6"]] =
      ([["A", "B", "C"]], [["1", "2", "3"], ["4", "5", "6"]]) :=
  ⟨by decide, by decide,
   normalizer_idempotent 3 _ _ (by decide) (by decide)⟩

/-- C7: for every normalized simple table with `N` header rows and `M`
body rows, the Markdown renderer produces a block of exactly
`N + 1 + M` lines — the header rows, one separator row at position `N`,
then one line per body row, cells separated by the pipe delimiter. -/
theorem markdown_renderer_line_count (cols : Nat) (headers body : List (List String)) :
    (renderMarkdownTable cols headers body).length = headers.length + 1 + body.length ∧
    (renderMarkdownTable cols headers body)[headers.length]? = some (mdSeparator cols) ∧
    (∀ row : List String,
      mdRowLine row = "| " ++ String.intercalate " | " row ++ " |") ∧
    mdSeparator cols = "| " ++ String.intercalate " | " (List.replicate cols "---") ++ " |" := by
  refine ⟨?_, ?_, fun row => rfl, rfl⟩
  · simp [renderMarkdownTable]
    omega
  · rw [renderMarkdownTable,
        List.getElem?_append_right (by simp : (headers.map mdRowLine).length ≤ headers.length)]
    simp

/-- C9: `tableToCSV` returns the newline-join of exactly
`len(headers) + len(rows)` lines, the `i`-th being the corresponding
row's cells wrapped verbatim in double quotes and joined by commas. -/
theorem tableToCSV_shape (td : TableData) :
    tableToCSV td =
      String.intercalate "\n" ((td.struct.headers ++ td.struct.rows).map rowCsvLine) ∧
    ((td.struct.headers ++ td.struct.rows).map rowCsvLine).length =
      td.struct.headers.length + td.struct.rows.length ∧
    (∀ row : List String,
      rowCsvLine row = String.intercalate "," (row.map fun cell => "\"" ++ cell ++ "\"")) := by
  refine ⟨?_, by simp, fun row => rfl⟩
  unfold tableToCSV
  cases hh : td.struct.headers <;> cases hr : td.struct.rows <;> simp

/-- C3 counterexample: a record whose `summary` is the empty string is a
record with a summary string, yet the `TableSummary` component renders
the fixed no-summary message instead of that string (JavaScript
truthiness treats `""` like a missing summary). -/
theorem tableSummary_empty_summary_counterexample :
    sampleTDEmptySummary.summary = some "" ∧
    renderSummarySection sampleTDEmptySummary = noSummaryMessage ∧
    renderSummarySection sampleTDEmptySummary ≠ "" := by
  refine ⟨rfl, rfl, by decide⟩

/-- C3 (amended): a table record whose summary was never set serializes
with a null `summary` field (not an empty string); the `TableSummary`
component renders the fixed no-summary message for a missing summary and
also for an empty-string summary, and renders any non-empty summary
string itself. -/
theorem summary_missing_default (t : Table) (td : TableData) (s : String) :
    (t.summary = none → getField (serializeTable t) "summary" = some Json.null) ∧
    (td.summary = none → renderSummarySection td = noSummaryMessage) ∧
    (td.summary = some "" → renderSummarySection td = noSummaryMessage) ∧
    (td.summary = some s → s ≠ "" → renderSummarySection td = s) := by
  refine ⟨fun h => ?_, fun h => ?_, fun h => ?_, fun h hs => ?_⟩
  · simp [serializeTable, getField, getKey, h, optStrJson]
  · simp [renderSummarySection, summaryTruthy, h]
  · simp [renderSummarySection, summaryTruthy, h]
  · simp [renderSummarySection, summaryTruthy, h, hs]

/-- Witness for C3: the sample table without a summary serializes to a
null summary field and renders the no-summary message; the sample with a
real summary renders that summary. -/
theorem summary_missing_default_witness :
    getField (serializeTable sampleTable) "summary" = some Json.null ∧
    renderSummarySection sampleTD = noSummaryMessage ∧
    renderSummarySection sampleTDEmptySummary = noSummaryMessage ∧
    renderSummarySection sampleTDSummary = "Totals by region" :=
  ⟨(summary_missing_default sampleTable sampleTD "Totals by region").1 rfl,
   (summary_missing_default sampleTable sampleTD "Totals by region").2.1 rfl,
   (summary_missing_default sampleTable sampleTDEmptySummary "Totals by region").2.2.1 rfl,
   (summary_missing_default sampleTable sampleTDSummary "Totals by region").2.2.2 rfl
     (by decide)⟩

/-- C4: serializing a complex Table to a structured record and parsing the
record back reproduces `table_id`, `rows`, `cols`, `has_merged_cells`,
`is_complex`, `headers` and `body_rows` exactly, and the summary field
(absent when it was never set). -/
theorem structured_record_roundtrip (t : Table) (_hc : t.is_complex = true) :
    ∃ td : TableData, parseTableData (serializeTable t) = some td ∧
      td.table_id = t.table_id ∧ td.complexity.rows = t.rows ∧
      td.complexity.cols = t.cols ∧
      td.complexity.has_merged_cells = t.has_merged_cells ∧
      td.complexity.is_complex = t.is_complex ∧
      td.struct.headers = t.headers ∧ td.struct.rows = t.body_rows ∧
      td.summary = t.summary :=
  ⟨tableToTableData t, parseTableData_serializeTable t,
   rfl, rfl, rfl, rfl, rfl, rfl, rfl, rfl⟩

/-- Witness for C4: the round trip at the concrete complex sample table. -/
theorem structured_record_roundtrip_witness :
    sampleTable.is_complex = true ∧
    (∃ td : TableData, parseTableData (serializeTable sampleTable) = some td ∧
      td.table_id = sampleTable.table_id ∧ td.complexity.rows = sampleTable.rows ∧
      td.complexity.cols = sampleTable.cols ∧
      td.complexity.has_merged_cells = sampleTable.has_merged_cells ∧
      td.complexity.is_complex = sampleTable.is_complex ∧
      td.struct.headers = sampleTable.headers ∧
      td.struct.rows = sampleTable.body_rows ∧
      td.summary = sampleTable.summary) :=
  ⟨rfl, structured_record_roundtrip sampleTable rfl⟩

/-- C8: every serialized structured record has exactly the stable key set
`table_id`, `page`, `caption`, `complexity` (with `rows`, `cols`,
`has_merged_cells`, `is_complex`), `structure` (with `headers`, `rows`)
and `summary`, and this shape is accepted by the frontend `TableData`
contract with no extra required keys. -/
theorem structured_record_shape (t : Table) :
    jsonKeys (serializeTable t) =
      ["table_id", "page", "caption", "complexity", "structure", "summary"] ∧
    (getField (serializeTable t) "complexity").map jsonKeys =
      some ["rows", "cols", "has_merged_cells", "is_complex"] ∧
    (getField (serializeTable t) "structure").map jsonKeys =
      some ["headers", "rows"] ∧
    (parseTableData (serializeTable t)).isSome = true := by
  refine ⟨rfl, rfl, rfl, ?_⟩
  rw [parseTableData_serializeTable]
  rfl

/-- C10: for every heading text whose lowercased, trimmed form is
non-empty, `generateId` is deterministic — the value of the random
fallback does not influence the result — and returns a non-empty
identifier (the random fallback branch is unreachable under this
precondition). -/
theorem generateId_deterministic_nonempty (text r1 r2 : String)
    (h : jsTrim (text.data.map Char.toLower) ≠ []) :
    generateId r1 text = generateId r2 text ∧ generateId r1 text ≠ "" := by
  cases h1 : slugify text.data with
  | cons c cs =>
    have e1 : generateId r1 text = String.mk (c :: cs) := by simp [generateId, h1]
    have e2 : generateId r2 text = String.mk (c :: cs) := by simp [generateId, h1]
    rw [e1, e2]
    exact ⟨rfl, strMk_ne_empty (by simp)⟩
  | nil =>
    have h2 :
        (encodeURIComponentL (jsTrim (text.data.map Char.toLower))).map percentToDash ≠ [] := by
      simp [encodeURIComponentL_ne_nil h]
    have e1 : generateId r1 text =
        String.mk ((encodeURIComponentL (jsTrim (text.data.map Char.toLower))).map percentToDash) := by
      simp [generateId, h1, h2]
    have e2 : generateId r2 text =
        String.mk ((encodeURIComponentL (jsTrim (text.data.map Char.toLower))).map percentToDash) := by
      simp [generateId, h1, h2]
    rw [e1, e2]
    exact ⟨rfl, strMk_ne_empty h2⟩

/-- Witness for C10: `generateId` on `"Hello World"` is independent of the
random fallback input and non-empty. -/
theorem generateId_deterministic_nonempty_witness :
    jsTrim ("Hello World".data.map Char.toLower) ≠ [] ∧
    (generateId "abcdefghi" "Hello World" = generateId "123456789" "Hello World" ∧
     generateId "abcdefghi" "Hello World" ≠ "") :=
  ⟨by decide,
   generateId_deterministic_nonempty "Hello World" "abcdefghi" "123456789" (by decide)⟩

/-- C2 counterexample: the text `Table 1 (see docs/table_001.json)`
contains the literal word `Table` followed by a number and a path
fragment ending in `table_001.json`, yet the viewer's detector does not
recognize it — the regex additionally requires the fragment to sit in a
`tables/` directory. -/
theorem tableRef_detection_counterexample :
    ClaimTableRef ("Table 1 (see docs/table_001.json)").data ∧
    isTableReference "Table 1 (see docs/table_001.json)" = false := by
  refine ⟨⟨⟨[], [' '], ['1'], " (see docs/table_001.json)".data,
      by decide, by decide, by decide, by decide⟩,
    ⟨"Table 1 (see docs/".data, ['0', '0', '1'], [')'],
      by decide, by decide, by decide⟩⟩, by decide⟩

/-- C2 (amended): the viewer's detector recognizes a blockquote text
exactly when it contains, case-insensitively, `table` followed by
whitespace and a number and then — with no intervening line terminator —
a fragment `tables/table_{digits}.json`; on recognition (with a document
name present) the blockquote becomes a table-reference widget whose id
is `table_` plus the digits of the first `table_{digits}.json`
occurrence in the text; a non-matching blockquote, or any blockquote
without a document name, renders as an ordinary blockquote. -/
theorem tableRef_detection_amended (dn s : String) :
    (isTableReference s = true ↔ AmendedTableRef s.data) ∧
    (isTableReference s = true →
      ∃ id, extractTableId s = some id ∧
        renderBlockquote (some dn) s = BlockquoteRender.widget id dn) ∧
    (isTableReference s = false →
      renderBlockquote (some dn) s = BlockquoteRender.plain) ∧
    renderBlockquote none s = BlockquoteRender.plain := by
  refine ⟨isTableReference_iff, ?_, ?_, rfl⟩
  · intro h
    obtain ⟨id, hid⟩ := extractTableId_isSome_of_ref h
    exact ⟨id, hid, by simp [renderBlockquote, h, hid]⟩
  · intro h
    simp [renderBlockquote, h]

/-- Witness for C2: the real placeholder text is recognized and becomes a
widget for `table_001`; an ordinary quote stays an ordinary blockquote. -/
theorem tableRef_detection_amended_witness :
    isTableReference "**Table 001** (see tables/table_001.json)" = true ∧
    (∃ id, extractTableId "**Table 001** (see tables/table_001.json)" = some id ∧
      renderBlockquote (some "doc") "**Table 001** (see tables/table_001.json)" =
        BlockquoteRender.widget id "doc") ∧
    isTableReference "just a quote" = false ∧
    renderBlockquote (some "doc") "just a quote" = BlockquoteRender.plain :=
  ⟨by decide,
   (tableRef_detection_amended "doc" "**Table 001** (see tables/table_001.json)").2.1
     (by decide),
   by decide,
   (tableRef_detection_amended "doc" "just a quote").2.2.1 (by decide)⟩

end PasingApp
